import Mathlib

/-!
# Verification of the kalshi-edge-detection hedge engine

A shallow embedding, over `ℚ`, of the numeric core of the repository's
frontend hedge engine:

* `recalcLocal` from `frontend/src/components/HedgeGroupCard.tsx` — the local
  recomputation of allocations, scenarios and summary fields;
* `commitExitThreshold` / `handleExitInputBlur` from the same file — the
  exit-threshold clamping pipeline;
* `runSimulation` and the histogram construction from
  `frontend/src/components/ReturnDistributionChart.tsx` — the Monte Carlo
  return-distribution simulator, with the ambient `Math.random()` draws made
  explicit as an input stream;
* the backend `ExitAnalyzer`, whose source is not in the repository snapshot,
  modelled from the specification.

JavaScript numbers are modelled as rationals; `Math.round` is "round half
toward +∞", i.e. `⌊x + 1/2⌋`, which agrees with JS on every finite input.
-/

namespace KalshiEdge

/-- JS `Math.round`: round half toward positive infinity, `⌊x + 1/2⌋`. -/
def jsRound (q : ℚ) : ℤ := ⌊q + 1/2⌋

/-- JS `Math.round(x * 100) / 100` — round to cents, as used throughout
`recalcLocal`. -/
def round2 (q : ℚ) : ℚ := (jsRound (q * 100) : ℚ) / 100

/-- JS `Math.round(x * 10) / 10` — round to one decimal, used for
`winProbability`. -/
def round1 (q : ℚ) : ℚ := (jsRound (q * 10) : ℚ) / 10

/-- One bucket of a hedge group (`BucketInfo` in `types/hedge.ts`); only the
fields the engine reads are modelled. -/
structure BucketInfo where
  ticker : String
  rangeLabel : String
  yesPrice : ℚ
  noPrice : ℚ
  hasLiquidity : Bool
  deriving DecidableEq

/-- A hedge group (`HedgeGroup` in `types/hedge.ts`); only the fields the
engine reads are modelled. -/
structure HedgeGroup where
  groupId : String
  sumYesPrices : ℚ
  overround : ℚ
  allHaveLiquidity : Bool
  buckets : List BucketInfo
  deriving DecidableEq

/-- Structure `BucketAllocation` from `types/hedge.ts`. -/
structure BucketAllocation where
  ticker : String
  rangeLabel : String
  noPrice : ℚ
  yesPrice : ℚ
  contracts : ℚ
  cost : ℚ
  fees : ℚ
  totalOutlay : ℚ
  profitIfNoWins : ℚ
  lossIfYesWins : ℚ
  included : Bool
  viable : Bool
  deriving DecidableEq

/-- Structure `Scenario` from `types/hedge.ts`. -/
structure Scenario where
  winningBucket : String
  winningLabel : String
  probability : ℚ
  netPnl : ℚ
  isProfitable : Bool
  deriving DecidableEq

/-- The `quality` union type `"good" | "fair" | "poor"`. -/
inductive Quality where
  | good | fair | poor
  deriving DecidableEq

/-- Structure `HedgeResult` from `types/hedge.ts`. -/
structure HedgeResult where
  groupId : String
  budget : ℚ
  feePerContract : ℚ
  totalCost : ℚ
  totalFees : ℚ
  totalOutlay : ℚ
  expectedProfit : ℚ
  worstCasePnl : ℚ
  bestCasePnl : ℚ
  winProbability : ℚ
  totalContracts : ℚ
  feeCostRatio : ℚ
  quality : Quality
  qualityReason : String
  allocations : List BucketAllocation
  scenarios : List Scenario
  deriving DecidableEq

/-- The per-allocation update inside `recalcLocal`
(`HedgeGroupCard.tsx:31-39`): take the override quantity if present
(`overrides[a.ticker] ?? a.contracts`) and recompute the derived dollar
fields, spreading the rest of the record unchanged. -/
def updateAlloc (feePerContract : ℚ) (overrides : String → Option ℚ)
    (a : BucketAllocation) : BucketAllocation :=
  let qty := (overrides a.ticker).getD a.contracts
  let costDollars := qty * a.noPrice / 100
  let feeDollars := qty * feePerContract
  let totalOutlay := costDollars + feeDollars
  let profitIfNoWins := qty * (100 - a.noPrice) / 100 - feeDollars
  let lossIfYesWins := -(costDollars + feeDollars)
  { a with contracts := qty, cost := costDollars, fees := feeDollars,
           totalOutlay := totalOutlay, profitIfNoWins := profitIfNoWins,
           lossIfYesWins := lossIfYesWins }

/-- The filter `allocations.filter(a => a.included && a.contracts > 0)`
(`HedgeGroupCard.tsx:41`), applied to the updated allocations. -/
def includedAllocs (base : HedgeResult) (overrides : String → Option ℚ)
    (feePerContract : ℚ) : List BucketAllocation :=
  (base.allocations.map (updateAlloc feePerContract overrides)).filter
    (fun a => a.included && decide (0 < a.contracts))

/-- The binding `const sumYes = group.sumYesPrices || 1` (`HedgeGroupCard.tsx:47`):
JS `||` replaces the falsy value `0` by `1`. -/
def effSumYes (group : HedgeGroup) : ℚ :=
  if group.sumYesPrices = 0 then 1 else group.sumYesPrices

/-- The `netPnl` accumulation loop of `recalcLocal`
(`HedgeGroupCard.tsx:50-57`): starting from `0`, for each included
allocation add `lossIfYesWins` when its ticker equals the winning bucket's
ticker, else `profitIfNoWins`. -/
def scenarioNetPnl (included : List BucketAllocation) (b : BucketInfo) : ℚ :=
  included.foldl
    (fun s a => if a.ticker = b.ticker then s + a.lossIfYesWins
                else s + a.profitIfNoWins) 0

/-- One scenario of `recalcLocal` (`HedgeGroupCard.tsx:48-65`). -/
def mkScenario (sumYes : ℚ) (included : List BucketAllocation)
    (b : BucketInfo) : Scenario :=
  let prob := b.yesPrice / sumYes
  let netPnl := scenarioNetPnl included b
  { winningBucket := b.ticker
    winningLabel := b.rangeLabel
    probability := prob
    netPnl := round2 netPnl
    isProfitable := decide (0 < netPnl) }

/-- Minimum of a list of rationals, as `Math.min(...pnls)`.  JS yields
`+Infinity` on an empty spread, which `ℚ` cannot represent; the model
returns `0` there and every theorem about the minimum assumes a non-empty
bucket list. -/
def listMin : List ℚ → ℚ
  | [] => 0
  | h :: t => t.foldl min h

/-- Maximum of a list of rationals, as `Math.max(...pnls)`; same caveat as
`listMin` for the empty list. -/
def listMax : List ℚ → ℚ
  | [] => 0
  | h :: t => t.foldl max h

/-- Function `recalcLocal` (`HedgeGroupCard.tsx:25-88`, identical to the earlier
revision in `src/unnamed/part_005`): recompute allocations from quantity
overrides, rebuild every scenario, and refresh the summary fields, spreading
the base result for everything else.  JS `reduce((s, x) => s + f x, 0)` is
`foldl`; overrides are a partial map from ticker to quantity. -/
def recalcLocal (group : HedgeGroup) (baseResult : HedgeResult)
    (overrides : String → Option ℚ) (feePerContract : ℚ) : HedgeResult :=
  let allocations := baseResult.allocations.map (updateAlloc feePerContract overrides)
  let included := allocations.filter (fun a => a.included && decide (0 < a.contracts))
  let totalCost : ℚ := included.foldl (fun s a => s + a.cost) 0
  let totalFees : ℚ := included.foldl (fun s a => s + a.fees) 0
  let totalOutlay := totalCost + totalFees
  let totalContracts : ℚ := included.foldl (fun s a => s + a.contracts) 0
  let sumYes := effSumYes group
  let scenarios := group.buckets.map (mkScenario sumYes included)
  let expectedProfit : ℚ := scenarios.foldl (fun s sc => s + sc.probability * sc.netPnl) 0
  let winProbability :=
    ((scenarios.filter (fun s => s.isProfitable)).foldl
      (fun s sc => s + sc.probability) 0) * 100
  let pnls := scenarios.map (fun s => s.netPnl)
  let worstCasePnl := listMin pnls
  let bestCasePnl := listMax pnls
  let feeCostRatio := if 0 < totalCost then totalFees / totalCost else 0
  { baseResult with
      allocations := allocations
      scenarios := scenarios
      totalCost := round2 totalCost
      totalFees := round2 totalFees
      totalOutlay := round2 totalOutlay
      expectedProfit := round2 expectedProfit
      worstCasePnl := round2 worstCasePnl
      bestCasePnl := round2 bestCasePnl
      winProbability := round1 winProbability
      totalContracts := totalContracts
      feeCostRatio := round2 feeCostRatio }

/-- Reference (specification-side) net P&L of the world where bucket `b`
wins: the plain sum, over the included allocations, of `lossIfYesWins` on
`b` and `profitIfNoWins` elsewhere.  Used to compare the implementation's
accumulation loop against the spec's description. -/
def specNetPnl (included : List BucketAllocation) (b : BucketInfo) : ℚ :=
  (included.map (fun a => if a.ticker = b.ticker then a.lossIfYesWins
                          else a.profitIfNoWins)).sum

lemma foldl_add_eq {α : Type} (f : α → ℚ) :
    ∀ (l : List α) (i : ℚ),
      l.foldl (fun s a => s + f a) i = i + (l.map f).sum := by
  intro l
  induction l with
  | nil => intro i; simp
  | cons a t ih => intro i; simp only [List.foldl_cons, List.map_cons, List.sum_cons, ih]; ring

lemma scenarioNetPnl_eq_spec (b : BucketInfo) :
    ∀ (inc : List BucketAllocation) (i : ℚ),
      inc.foldl (fun s a => if a.ticker = b.ticker then s + a.lossIfYesWins
                            else s + a.profitIfNoWins) i = i + specNetPnl inc b := by
  intro inc
  induction inc with
  | nil => intro i; simp [specNetPnl]
  | cons a t ih =>
      intro i
      simp only [List.foldl_cons, specNetPnl, List.map_cons, List.sum_cons, ih]
      by_cases h : a.ticker = b.ticker <;> simp [h, specNetPnl] <;> ring

lemma round2_zero : round2 0 = 0 := by
  norm_num [round2, jsRound]

lemma mkScenario_eq (sumYes : ℚ) (inc : List BucketAllocation) (b : BucketInfo) :
    mkScenario sumYes inc b =
      { winningBucket := b.ticker
        winningLabel := b.rangeLabel
        probability := b.yesPrice / sumYes
        netPnl := round2 (specNetPnl inc b)
        isProfitable := decide (0 < specNetPnl inc b) } := by
  have h : scenarioNetPnl inc b = specNetPnl inc b := by
    simpa [scenarioNetPnl] using scenarioNetPnl_eq_spec b inc 0
  simp only [mkScenario, h]

/-- C1: every scenario built by `recalcLocal` has `netPnl` equal to the
cent-rounded sum, over the included allocations (those with
`included && contracts > 0`), of `lossIfYesWins` on the winning bucket and
`profitIfNoWins` on every other bucket, with `isProfitable` exactly when
that (unrounded) sum is positive; and with zero included allocations the
scenario constructor always yields `netPnl = 0`. -/
theorem recalcLocal_scenario_netPnl (g : HedgeGroup) (base : HedgeResult)
    (ov : String → Option ℚ) (fee : ℚ) :
    ((recalcLocal g base ov fee).scenarios =
      g.buckets.map (fun b =>
        { winningBucket := b.ticker
          winningLabel := b.rangeLabel
          probability := b.yesPrice / effSumYes g
          netPnl := round2 (specNetPnl (includedAllocs base ov fee) b)
          isProfitable := decide (0 < specNetPnl (includedAllocs base ov fee) b) })) ∧
    ∀ b : BucketInfo, (mkScenario (effSumYes g) [] b).netPnl = 0 := by
  constructor
  · show g.buckets.map (mkScenario (effSumYes g) (includedAllocs base ov fee)) = _
    exact List.map_congr_left fun b _ => mkScenario_eq _ _ b
  · intro b
    rw [mkScenario_eq]
    simpa [specNetPnl] using round2_zero

lemma sum_map_div (l : List BucketInfo) (f : BucketInfo → ℚ) (c : ℚ) :
    (l.map (fun b => f b / c)).sum = (l.map f).sum / c := by
  induction l with
  | nil => simp
  | cons a t ih => simp [ih, add_div]

/-- C3: when the group's `sumYesPrices` field equals the sum of its buckets'
`yesPrice` values and is positive, each scenario's probability is
`yesPrice / sumYesPrices` and the probabilities sum to exactly `1`; when
`sumYesPrices = 0` the JS `|| 1` guard makes the divisor `1`, so every
probability is the finite value `yesPrice / 1` (never `NaN`/`Infinity`). -/
theorem recalcLocal_prob_sum (g : HedgeGroup) (base : HedgeResult)
    (ov : String → Option ℚ) (fee : ℚ)
    (hsum : g.sumYesPrices = (g.buckets.map (fun b => b.yesPrice)).sum) :
    (0 < g.sumYesPrices →
      ((recalcLocal g base ov fee).scenarios.map (fun s => s.probability)
          = g.buckets.map (fun b => b.yesPrice / g.sumYesPrices)) ∧
      ((recalcLocal g base ov fee).scenarios.map (fun s => s.probability)).sum = 1) ∧
    (g.sumYesPrices = 0 →
      effSumYes g = 1 ∧
      ((recalcLocal g base ov fee).scenarios.map (fun s => s.probability)
          = g.buckets.map (fun b => b.yesPrice / 1))) := by
  have hprobs : (recalcLocal g base ov fee).scenarios.map (fun s => s.probability)
      = g.buckets.map (fun b => b.yesPrice / effSumYes g) := by
    show (g.buckets.map (mkScenario (effSumYes g) (includedAllocs base ov fee))).map
        (fun s => s.probability) = _
    rw [List.map_map]
    exact List.map_congr_left fun b _ => by rw [Function.comp_apply, mkScenario_eq]
  constructor
  · intro hpos
    have hne : g.sumYesPrices ≠ 0 := ne_of_gt hpos
    have heff : effSumYes g = g.sumYesPrices := by simp [effSumYes, hne]
    refine ⟨by rw [hprobs, heff], ?_⟩
    rw [hprobs, heff, sum_map_div, ← hsum, div_self hne]
  · intro hzero
    have heff : effSumYes g = 1 := by simp [effSumYes, hzero]
    exact ⟨heff, by rw [hprobs, heff]⟩

/-- C9: `recalcLocal` maps the allocation list in place — the length and
order, and each allocation's `ticker`, `rangeLabel`, `noPrice`, `yesPrice`,
`included` and `viable` fields, are preserved — and passes through the base
result's `groupId`, `budget`, `feePerContract`, `quality` and
`qualityReason` unchanged. -/
theorem recalcLocal_frame (g : HedgeGroup) (base : HedgeResult)
    (ov : String → Option ℚ) (fee : ℚ) :
    ((recalcLocal g base ov fee).allocations.map
        (fun a => (a.ticker, a.rangeLabel, a.noPrice, a.yesPrice, a.included, a.viable))
      = base.allocations.map
        (fun a => (a.ticker, a.rangeLabel, a.noPrice, a.yesPrice, a.included, a.viable))) ∧
    (recalcLocal g base ov fee).allocations.length = base.allocations.length ∧
    (recalcLocal g base ov fee).groupId = base.groupId ∧
    (recalcLocal g base ov fee).budget = base.budget ∧
    (recalcLocal g base ov fee).feePerContract = base.feePerContract ∧
    (recalcLocal g base ov fee).quality = base.quality ∧
    (recalcLocal g base ov fee).qualityReason = base.qualityReason := by
  refine ⟨?_, ?_, rfl, rfl, rfl, rfl, rfl⟩
  · show (base.allocations.map (updateAlloc fee ov)).map _ = _
    rw [List.map_map]
    rfl
  · show (base.allocations.map (updateAlloc fee ov)).length = _
    rw [List.length_map]


lemma foldl_min_choice : ∀ (t : List ℚ) (a : ℚ), t.foldl min a = a ∨ t.foldl min a ∈ t := by
  intro t
  induction t with
  | nil => intro a; left; rfl
  | cons x xs ih =>
      intro a
      rcases ih (min a x) with h | h
      · rcases min_choice a x with hm | hm
        · left; rw [List.foldl_cons, h, hm]
        · right; rw [List.foldl_cons, h, hm]; exact List.mem_cons_self x xs
      · right; exact List.mem_cons_of_mem x h

lemma foldl_min_le_init : ∀ (t : List ℚ) (a : ℚ), t.foldl min a ≤ a := by
  intro t
  induction t with
  | nil => intro a; exact le_refl a
  | cons x xs ih =>
      intro a
      calc (x :: xs).foldl min a = xs.foldl min (min a x) := rfl
        _ ≤ min a x := ih (min a x)
        _ ≤ a := min_le_left a x

lemma foldl_min_le_mem : ∀ (t : List ℚ) (a p : ℚ), p ∈ t → t.foldl min a ≤ p := by
  intro t
  induction t with
  | nil => intro a p hp; exact absurd hp (List.not_mem_nil p)
  | cons x xs ih =>
      intro a p hp
      rcases List.mem_cons.mp hp with rfl | hp
      · calc (p :: xs).foldl min a = xs.foldl min (min a p) := rfl
          _ ≤ min a p := foldl_min_le_init xs (min a p)
          _ ≤ p := min_le_right a p
      · exact ih (min a x) p hp

lemma listMin_mem (l : List ℚ) (h : l ≠ []) : listMin l ∈ l := by
  match l with
  | [] => exact absurd rfl h
  | x :: t =>
      rcases foldl_min_choice t x with hc | hc
      · rw [listMin, hc]; exact List.mem_cons_self x t
      · exact List.mem_cons_of_mem x hc

lemma listMin_le (l : List ℚ) : ∀ p ∈ l, listMin l ≤ p := by
  match l with
  | [] => intro p hp; exact absurd hp (List.not_mem_nil p)
  | x :: t =>
      intro p hp
      rcases List.mem_cons.mp hp with rfl | hp
      · exact foldl_min_le_init t p
      · exact foldl_min_le_mem t x p hp

lemma foldl_max_choice : ∀ (t : List ℚ) (a : ℚ), t.foldl max a = a ∨ t.foldl max a ∈ t := by
  intro t
  induction t with
  | nil => intro a; left; rfl
  | cons x xs ih =>
      intro a
      rcases ih (max a x) with h | h
      · rcases max_choice a x with hm | hm
        · left; rw [List.foldl_cons, h, hm]
        · right; rw [List.foldl_cons, h, hm]; exact List.mem_cons_self x xs
      · right; exact List.mem_cons_of_mem x h

lemma le_foldl_max_init : ∀ (t : List ℚ) (a : ℚ), a ≤ t.foldl max a := by
  intro t
  induction t with
  | nil => intro a; exact le_refl a
  | cons x xs ih =>
      intro a
      calc a ≤ max a x := le_max_left a x
        _ ≤ xs.foldl max (max a x) := ih (max a x)
        _ = (x :: xs).foldl max a := rfl

lemma mem_le_foldl_max : ∀ (t : List ℚ) (a p : ℚ), p ∈ t → p ≤ t.foldl max a := by
  intro t
  induction t with
  | nil => intro a p hp; exact absurd hp (List.not_mem_nil p)
  | cons x xs ih =>
      intro a p hp
      rcases List.mem_cons.mp hp with rfl | hp
      · calc p ≤ max a p := le_max_right a p
          _ ≤ xs.foldl max (max a p) := le_foldl_max_init xs (max a p)
          _ = (p :: xs).foldl max a := rfl
      · exact ih (max a x) p hp

lemma listMax_mem (l : List ℚ) (h : l ≠ []) : listMax l ∈ l := by
  match l with
  | [] => exact absurd rfl h
  | x :: t =>
      rcases foldl_max_choice t x with hc | hc
      · rw [listMax, hc]; exact List.mem_cons_self x t
      · exact List.mem_cons_of_mem x hc

lemma le_listMax (l : List ℚ) : ∀ p ∈ l, p ≤ listMax l := by
  match l with
  | [] => intro p hp; exact absurd hp (List.not_mem_nil p)
  | x :: t =>
      intro p hp
      rcases List.mem_cons.mp hp with rfl | hp
      · exact le_foldl_max_init t p
      · exact mem_le_foldl_max t x p hp

lemma round2_round2 (x : ℚ) : round2 (round2 x) = round2 x := by
  unfold round2 jsRound
  have h1 : ((⌊x * 100 + 1 / 2⌋ : ℚ) / 100) * 100 = (⌊x * 100 + 1 / 2⌋ : ℚ) := by
    field_simp
  rw [h1]
  rw [show ((⌊x * 100 + 1 / 2⌋ : ℚ) + 1 / 2) = ((⌊x * 100 + 1 / 2⌋ : ℤ) : ℚ) + 1 / 2 from rfl]
  rw [Int.floor_int_add]
  norm_num

/-- Every `netPnl` stored in a `recalcLocal` scenario is already rounded to
cents, so rounding it again is the identity. -/
lemma recalc_pnls_round2 (g : HedgeGroup) (base : HedgeResult)
    (ov : String → Option ℚ) (fee : ℚ) :
    ∀ p ∈ (recalcLocal g base ov fee).scenarios.map (fun s => s.netPnl),
      round2 p = p := by
  intro p hp
  have : p ∈ (g.buckets.map (mkScenario (effSumYes g) (includedAllocs base ov fee))).map
      (fun s => s.netPnl) := hp
  rw [List.map_map] at this
  obtain ⟨b, _, hb⟩ := List.mem_map.mp this
  rw [Function.comp_apply, mkScenario_eq] at hb
  rw [← hb]
  exact round2_round2 _

/-- Reference (specification-side) total cost: plain sum of `cost` over the
included allocations. -/
def specTotalCost (base : HedgeResult) (overrides : String → Option ℚ)
    (feePerContract : ℚ) : ℚ :=
  ((includedAllocs base overrides feePerContract).map (fun a => a.cost)).sum

/-- Reference (specification-side) total fees: plain sum of `fees` over the
included allocations. -/
def specTotalFees (base : HedgeResult) (overrides : String → Option ℚ)
    (feePerContract : ℚ) : ℚ :=
  ((includedAllocs base overrides feePerContract).map (fun a => a.fees)).sum

lemma foldl_expected (l : List Scenario) :
    l.foldl (fun s sc => s + sc.probability * sc.netPnl) 0
      = (l.map (fun sc => sc.probability * sc.netPnl)).sum := by
  simpa using foldl_add_eq (fun sc : Scenario => sc.probability * sc.netPnl) l 0

lemma foldl_probsum (l : List Scenario) :
    l.foldl (fun s sc => s + sc.probability) 0
      = (l.map (fun sc => sc.probability)).sum := by
  simpa using foldl_add_eq (fun sc : Scenario => sc.probability) l 0

lemma foldl_cost (l : List BucketAllocation) :
    l.foldl (fun s a => s + a.cost) 0 = (l.map (fun a => a.cost)).sum := by
  simpa using foldl_add_eq (fun a : BucketAllocation => a.cost) l 0

lemma foldl_fees (l : List BucketAllocation) :
    l.foldl (fun s a => s + a.fees) 0 = (l.map (fun a => a.fees)).sum := by
  simpa using foldl_add_eq (fun a : BucketAllocation => a.fees) l 0

/-- Group for the concrete C3 witness: two buckets with YES prices 20 and
35, `sumYesPrices = 55` consistent with the bucket list. -/
def c3Group : HedgeGroup :=
  { groupId := "G3", sumYesPrices := 55, overround := -45, allHaveLiquidity := true,
    buckets := [⟨"T1", "r1", 20, 80, true⟩, ⟨"T2", "r2", 35, 65, true⟩] }

/-- Base result for the concrete C3 witness. -/
def c3Base : HedgeResult :=
  { groupId := "G3", budget := 100, feePerContract := 0, totalCost := 0,
    totalFees := 0, totalOutlay := 0, expectedProfit := 0, worstCasePnl := 0,
    bestCasePnl := 0, winProbability := 0, totalContracts := 0,
    feeCostRatio := 0, quality := .fair, qualityReason := "",
    allocations := [], scenarios := [] }

/-- Witness for C3 at a concrete group: probabilities are `20/55` and
`35/55` and sum to `1`. -/
theorem recalcLocal_prob_sum_witness :
    c3Group.sumYesPrices = (c3Group.buckets.map (fun b => b.yesPrice)).sum ∧
    (0 : ℚ) < c3Group.sumYesPrices ∧
    (((recalcLocal c3Group c3Base (fun _ => none) 0).scenarios.map (fun s => s.probability)
        = c3Group.buckets.map (fun b => b.yesPrice / c3Group.sumYesPrices)) ∧
      ((recalcLocal c3Group c3Base (fun _ => none) 0).scenarios.map (fun s => s.probability)).sum = 1) :=
  ⟨by norm_num [c3Group], by norm_num [c3Group],
    (recalcLocal_prob_sum c3Group c3Base (fun _ => none) 0
      (by norm_num [c3Group])).1 (by norm_num [c3Group])⟩

/-- Group for the concrete C4 input: two buckets `A`, `B`, YES prices both
50, `sumYesPrices = 100`. -/
def c4Group : HedgeGroup :=
  { groupId := "G4", sumYesPrices := 100, overround := 0, allHaveLiquidity := true,
    buckets := [⟨"A", "a", 50, 50, true⟩, ⟨"B", "b", 50, 50, true⟩] }

/-- Base allocation for the concrete C4 input: one included contract of NO
on bucket `A` at 50c with zero fees. -/
def c4Alloc : BucketAllocation :=
  { ticker := "A", rangeLabel := "a", noPrice := 50, yesPrice := 50,
    contracts := 1, cost := 0, fees := 0, totalOutlay := 0,
    profitIfNoWins := 0, lossIfYesWins := 0, included := true, viable := true }

/-- Base result for the concrete C4 input. -/
def c4Base : HedgeResult :=
  { groupId := "G4", budget := 100, feePerContract := 0, totalCost := 0,
    totalFees := 0, totalOutlay := 0, expectedProfit := 0, worstCasePnl := 0,
    bestCasePnl := 0, winProbability := 0, totalContracts := 0,
    feeCostRatio := 0, quality := .fair, qualityReason := "",
    allocations := [c4Alloc], scenarios := [] }

/-- Counterexample to C4 as stated: at a concrete input the stored
`winProbability` is `50` (a percentage, rounded to one decimal) while the
sum of `probability` over profitable scenarios is `1/2`, so the field does
not equal the claimed reference value. -/
theorem recalcLocal_winProb_counterexample :
    (recalcLocal c4Group c4Base (fun _ => none) 0).winProbability = 50 ∧
    (((recalcLocal c4Group c4Base (fun _ => none) 0).scenarios.filter
        (fun s => s.isProfitable)).map (fun s => s.probability)).sum = 1/2 ∧
    (recalcLocal c4Group c4Base (fun _ => none) 0).winProbability ≠
      (((recalcLocal c4Group c4Base (fun _ => none) 0).scenarios.filter
          (fun s => s.isProfitable)).map (fun s => s.probability)).sum := by
  refine ⟨?_, ?_, ?_⟩ <;>
    · simp [recalcLocal, c4Group, c4Base, c4Alloc, updateAlloc, mkScenario,
        scenarioNetPnl, effSumYes, round1, round2, jsRound, listMin, listMax]
      norm_num

/-- C4 (amended): the summary fields of `recalcLocal` satisfy —
`expectedProfit` is the cent-rounded sum of `probability * netPnl`;
`worstCasePnl` and `bestCasePnl` are the fold minimum and maximum of the scenario
`netPnl`s (and are themselves scenario `netPnl`s); `winProbability` is `100`
times the sum of `probability` over profitable scenarios, rounded to one
decimal; `feeCostRatio` is the cent-rounded ratio of total fees to total
cost over the included allocations, `0` unless the total cost is positive. -/
theorem recalcLocal_summary_fields (g : HedgeGroup) (base : HedgeResult)
    (ov : String → Option ℚ) (fee : ℚ) (hne : g.buckets ≠ []) :
    ((recalcLocal g base ov fee).expectedProfit
        = round2 (((recalcLocal g base ov fee).scenarios.map
            (fun s => s.probability * s.netPnl)).sum)) ∧
    ((recalcLocal g base ov fee).worstCasePnl
        = listMin ((recalcLocal g base ov fee).scenarios.map (fun s => s.netPnl))) ∧
    ((recalcLocal g base ov fee).worstCasePnl
        ∈ (recalcLocal g base ov fee).scenarios.map (fun s => s.netPnl)) ∧
    ((recalcLocal g base ov fee).bestCasePnl
        = listMax ((recalcLocal g base ov fee).scenarios.map (fun s => s.netPnl))) ∧
    ((recalcLocal g base ov fee).bestCasePnl
        ∈ (recalcLocal g base ov fee).scenarios.map (fun s => s.netPnl)) ∧
    ((recalcLocal g base ov fee).winProbability
        = round1 (100 * (((recalcLocal g base ov fee).scenarios.filter
            (fun s => s.isProfitable)).map (fun s => s.probability)).sum)) ∧
    ((recalcLocal g base ov fee).feeCostRatio
        = round2 (if 0 < specTotalCost base ov fee
            then specTotalFees base ov fee / specTotalCost base ov fee else 0)) := by
  have hpne : (recalcLocal g base ov fee).scenarios.map (fun s => s.netPnl) ≠ [] := by
    intro hcon
    rw [List.map_eq_nil_iff] at hcon
    have : g.buckets = [] := by
      have h2 : g.buckets.map (mkScenario (effSumYes g) (includedAllocs base ov fee)) = [] := hcon
      rwa [List.map_eq_nil_iff] at h2
    exact hne this
  have emin : (recalcLocal g base ov fee).worstCasePnl
      = listMin ((recalcLocal g base ov fee).scenarios.map (fun s => s.netPnl)) :=
    recalc_pnls_round2 g base ov fee _ (listMin_mem _ hpne)
  have emax : (recalcLocal g base ov fee).bestCasePnl
      = listMax ((recalcLocal g base ov fee).scenarios.map (fun s => s.netPnl)) :=
    recalc_pnls_round2 g base ov fee _ (listMax_mem _ hpne)
  refine ⟨?_, emin, ?_, emax, ?_, ?_, ?_⟩
  · show round2 (((recalcLocal g base ov fee).scenarios).foldl
        (fun s sc => s + sc.probability * sc.netPnl) 0) = _
    rw [foldl_expected]
  · rw [emin]; exact listMin_mem _ hpne
  · rw [emax]; exact listMax_mem _ hpne
  · show round1 ((((recalcLocal g base ov fee).scenarios.filter
        (fun s => s.isProfitable)).foldl (fun s sc => s + sc.probability) 0) * 100) = _
    rw [foldl_probsum, mul_comm]
  · show round2 (if 0 < (includedAllocs base ov fee).foldl (fun s a => s + a.cost) 0
        then (includedAllocs base ov fee).foldl (fun s a => s + a.fees) 0
              / (includedAllocs base ov fee).foldl (fun s a => s + a.cost) 0
        else 0) = _
    simp only [foldl_cost, foldl_fees]
    rfl

/-- Witness for the amended C4 at the concrete two-bucket input. -/
theorem recalcLocal_summary_fields_witness :
    c4Group.buckets ≠ [] ∧
    (((recalcLocal c4Group c4Base (fun _ => none) 0).expectedProfit
        = round2 (((recalcLocal c4Group c4Base (fun _ => none) 0).scenarios.map
            (fun s => s.probability * s.netPnl)).sum)) ∧
    ((recalcLocal c4Group c4Base (fun _ => none) 0).worstCasePnl
        = listMin ((recalcLocal c4Group c4Base (fun _ => none) 0).scenarios.map (fun s => s.netPnl))) ∧
    ((recalcLocal c4Group c4Base (fun _ => none) 0).worstCasePnl
        ∈ (recalcLocal c4Group c4Base (fun _ => none) 0).scenarios.map (fun s => s.netPnl)) ∧
    ((recalcLocal c4Group c4Base (fun _ => none) 0).bestCasePnl
        = listMax ((recalcLocal c4Group c4Base (fun _ => none) 0).scenarios.map (fun s => s.netPnl))) ∧
    ((recalcLocal c4Group c4Base (fun _ => none) 0).bestCasePnl
        ∈ (recalcLocal c4Group c4Base (fun _ => none) 0).scenarios.map (fun s => s.netPnl)) ∧
    ((recalcLocal c4Group c4Base (fun _ => none) 0).winProbability
        = round1 (100 * (((recalcLocal c4Group c4Base (fun _ => none) 0).scenarios.filter
            (fun s => s.isProfitable)).map (fun s => s.probability)).sum)) ∧
    ((recalcLocal c4Group c4Base (fun _ => none) 0).feeCostRatio
        = round2 (if 0 < specTotalCost c4Base (fun _ => none) 0
            then specTotalFees c4Base (fun _ => none) 0 / specTotalCost c4Base (fun _ => none) 0
            else 0))) :=
  ⟨by simp [c4Group], recalcLocal_summary_fields c4Group c4Base (fun _ => none) 0 (by simp [c4Group])⟩

/-- The clamp inside `commitExitThreshold` (`HedgeGroupCard.tsx:156`):
`Math.max(0.01, Math.min(0.99, value))`. -/
def commitClamp (value : ℚ) : ℚ := max (1/100) (min (99/100) value)

/-- The numeric pipeline of `handleExitInputBlur`
(`HedgeGroupCard.tsx:187-199`) for a successfully parsed number `num`:
treat `0 < num ≤ 1` as a fraction (`num * 100`), otherwise as a percentage;
round; clamp to `[0, 100]`; divide by 100 and commit through
`commitExitThreshold`'s clamp. -/
def exitInputCommit (num : ℚ) : ℚ :=
  let pct := if 0 < num ∧ num ≤ 1 then num * 100 else num
  let rounded := jsRound pct
  let clamped := max 0 (min 100 (rounded : ℚ))
  commitClamp (clamped / 100)

lemma commitClamp_bounds (v : ℚ) : 0 < commitClamp v ∧ commitClamp v < 1 := by
  constructor
  · have h1 : (1 : ℚ)/100 ≤ commitClamp v := le_max_left _ _
    linarith
  · have h2 : commitClamp v ≤ 99/100 := max_le (by norm_num) (min_le_left _ _)
    linarith

/-- C8: every numeric exit-threshold input — whether committed directly from
the slider through `commitExitThreshold` or through the text-input blur
pipeline — is clamped into the open interval `(0, 1)` (in fact into
`[0.01, 0.99]`); both paths are total functions, so no error is raised. -/
theorem exitThreshold_clamped (v : ℚ) :
    (0 < commitClamp v ∧ commitClamp v < 1) ∧
    (0 < exitInputCommit v ∧ exitInputCommit v < 1) :=
  ⟨commitClamp_bounds v, commitClamp_bounds _⟩

/-- The per-trial random draws consumed by one iteration of the
`runSimulation` loop (`ReturnDistributionChart.tsx:26-43`), in `Math.random()`
call order: one `noise` draw per scenario index, then the selection draw
(`const rand = Math.random()`), then the P&L jitter draw.  The source reads
the ambient global `Math.random()`; the embedding makes those draws an
explicit input. -/
structure TrialDraws where
  noise : ℕ → ℚ
  pick : ℚ
  jitter : ℚ

/-- The constant `const variance = 0.4` (`ReturnDistributionChart.tsx:24`). -/
def variance : ℚ := 2/5

/-- The term `(Math.random() - 0.5) * 2 * variance` — the probability noise for
scenario index `idx` (`ReturnDistributionChart.tsx:27`). -/
def trialNoise (d : TrialDraws) (idx : ℕ) : ℚ := (d.noise idx - 1/2) * 2 * variance

/-- The list `variedProbs` after the noise shift and the `Math.max(0.001, p)` floor
(`ReturnDistributionChart.tsx:28-29`). -/
def variedProbs (scenarios : List Scenario) (d : TrialDraws) : List ℚ :=
  (scenarios.enum.map (fun p => p.2.probability + trialNoise d p.1)).map
    (fun p => max (1/1000) p)

/-- The sum `const total = variedProbs.reduce((a, b) => a + b, 0)`
(`ReturnDistributionChart.tsx:30`). -/
def trialTotal (scenarios : List Scenario) (d : TrialDraws) : ℚ :=
  (variedProbs scenarios d).foldl (fun a b => a + b) 0

/-- The renormalization `variedProbs.map(p => p / total)` (`ReturnDistributionChart.tsx:31`). -/
def normProbs (scenarios : List Scenario) (d : TrialDraws) : List ℚ :=
  (variedProbs scenarios d).map (fun p => p / trialTotal scenarios d)

/-- The running cumulative sum used to build `cumProbs`
(`ReturnDistributionChart.tsx:33-37`): each scenario is paired with the
cumulative probability up to and including itself. -/
def withCum (acc : ℚ) : List (Scenario × ℚ) → List (Scenario × ℚ)
  | [] => []
  | (s, p) :: rest => (s, acc + p) :: withCum (acc + p) rest

/-- The list `cumProbs` (`ReturnDistributionChart.tsx:33-37`): scenarios paired with
their cumulative perturbed probability. -/
def cumPairs (scenarios : List Scenario) (d : TrialDraws) : List (Scenario × ℚ) :=
  withCum 0 (scenarios.zip (normProbs scenarios d))

/-- The selection `cumProbs.find(s => rand <= s.cumProb) || cumProbs[cumProbs.length - 1]`
(`ReturnDistributionChart.tsx:40`): first scenario whose cumulative
probability reaches the draw, with a total fallback to the last entry. -/
def selectScenario (scenarios : List Scenario) (d : TrialDraws) :
    Option (Scenario × ℚ) :=
  ((cumPairs scenarios d).find? (fun sc => decide (d.pick ≤ sc.2))).or
    (cumPairs scenarios d).getLast?

/-- One loop iteration of `runSimulation`
(`ReturnDistributionChart.tsx:27-42`): select a scenario and add the jitter
`(Math.random() - 0.5) * (Math.abs(netPnl) * 0.15)`.  On an empty scenario
list the source would fault (`cumProbs[-1]` is `undefined`); the caller
guards that case away, and the model returns `0` there. -/
def runTrial (scenarios : List Scenario) (d : TrialDraws) : ℚ :=
  match selectScenario scenarios d with
  | some w => w.1.netPnl + (d.jitter - 1/2) * (|w.1.netPnl| * (3/20))
  | none => 0

/-- Function `runSimulation(scenarios, outOf)` (`ReturnDistributionChart.tsx:22-45`):
one simulated P&L per loop iteration; the iteration count `outOf` is the
length of the explicit draw list. -/
def runSimulation (scenarios : List Scenario) (draws : List TrialDraws) : List ℚ :=
  draws.map (runTrial scenarios)

/-- The histogram keys initialized by
`for (let b = minBin; b <= maxBin; b += BIN_SIZE_PCT) binCounts[b] = 0`
(`ReturnDistributionChart.tsx:57-64`) with `minBin = -100`, `maxBin = 100`,
`BIN_SIZE_PCT = 3`: the 67 integers `-100 + 3k` for `k = 0, …, 66` (the next
step, `101`, exceeds `maxBin`). -/
def binKeys : List ℤ := (List.range 67).map (fun (k : ℕ) => -100 + 3 * (k : ℤ))

/-- The bin `Math.floor(returnPct / BIN_SIZE_PCT) * BIN_SIZE_PCT`
(`ReturnDistributionChart.tsx:69`). -/
def computeBin (returnPct : ℚ) : ℤ := ⌊returnPct / 3⌋ * 3

/-- The count accumulated into `binCounts[b]`
(`ReturnDistributionChart.tsx:66-73`): a sample is tallied only when its
computed bin equals an initialized key (`binCounts[bin] !== undefined`);
samples whose computed bin is not a key are dropped. -/
def binCount (simPnls : List ℚ) (totalOutlay : ℚ) (b : ℤ) : ℕ :=
  (simPnls.filter (fun pnl => decide (computeBin (pnl / totalOutlay * 100) = b))).length

/-- The `data` memo of `ReturnDistributionChart`
(`ReturnDistributionChart.tsx:50-88`): the JS-falsy guard
`if (!totalOutlay || scenarios.length === 0) return []`, then one
`(returnBin, frequency)` entry per initialized key, in ascending key order
(the source's `Object.entries` + sort; `displayLabel` and `isPositive` are
presentation only and omitted). -/
def chartData (scenarios : List Scenario) (totalOutlay : ℚ)
    (draws : List TrialDraws) : List (ℤ × ℕ) :=
  if totalOutlay = 0 ∨ scenarios = [] then []
  else binKeys.map (fun b => (b, binCount (runSimulation scenarios draws) totalOutlay b))

lemma binKeys_not_dvd_three : ∀ b ∈ binKeys, ¬ (3 ∣ b) := by
  intro b hb
  obtain ⟨k, _, rfl⟩ := List.mem_map.mp hb
  omega

/-- C2 (the code, evaluated): the initialized histogram keys are congruent
to 2 mod 3 while every computed bin is a multiple of 3, so no simulated
sample is ever tallied — for every input the frequencies of the
return-distribution histogram sum to `0`, never to the number of
simulations. -/
theorem binned_counts_always_zero (scenarios : List Scenario) (totalOutlay : ℚ)
    (draws : List TrialDraws) :
    ((chartData scenarios totalOutlay draws).map (fun e => e.2)).sum = 0 := by
  unfold chartData
  by_cases hguard : totalOutlay = 0 ∨ scenarios = []
  · simp [hguard]
  · rw [if_neg hguard, List.map_map]
    apply List.sum_eq_zero
    intro x hx
    obtain ⟨b, hb, hxb⟩ := List.mem_map.mp hx
    have hdvd : ¬ (3 ∣ b) := binKeys_not_dvd_three b hb
    have hx0 : binCount (runSimulation scenarios draws) totalOutlay b = 0 := by
      unfold binCount
      rw [List.length_eq_zero, List.filter_eq_nil_iff]
      intro pnl _
      simp only [decide_eq_true_eq]
      intro hcb
      have h3 : (3 : ℤ) ∣ computeBin (pnl / totalOutlay * 100) := dvd_mul_left 3 _
      rw [hcb] at h3
      exact hdvd h3
    rw [← hxb]
    exact hx0

/-- Scenario used for the concrete C6 inputs. -/
def c6Scenario : Scenario := ⟨"X", "x", 1, 10, false⟩

/-- Counterexample to C6 as stated: for the strictly negative outlay `-1`
and a non-empty scenario list the guard `if (!totalOutlay || ...)` does not
fire (only `0` is falsy), and the result is the full 67-bin histogram, not
the empty one. -/
theorem chartData_negative_outlay_counterexample :
    ((-1 : ℚ) < 0) ∧ chartData [c6Scenario] (-1) [] ≠ [] := by
  refine ⟨by norm_num, ?_⟩
  unfold chartData
  rw [if_neg (by simp)]
  intro hcon
  have hlen : binKeys.length = 67 := by rw [binKeys, List.length_map, List.length_range]
  have : binKeys = [] := by rwa [List.map_eq_nil_iff] at hcon
  rw [this] at hlen
  exact absurd hlen (by norm_num)

/-- C6 (amended): when the scenario list is empty or `totalOutlay` is
exactly `0` (the JS falsy check), the chart data is the empty histogram,
with no division performed. -/
theorem chartData_degenerate_empty (scenarios : List Scenario) (totalOutlay : ℚ)
    (draws : List TrialDraws) (h : totalOutlay = 0 ∨ scenarios = []) :
    chartData scenarios totalOutlay draws = [] := by
  unfold chartData
  exact if_pos h

/-- Witness for the amended C6 at `totalOutlay = 0`. -/
theorem chartData_degenerate_empty_witness :
    ((0 : ℚ) = 0 ∨ ([c6Scenario] : List Scenario) = []) ∧
    chartData [c6Scenario] 0 [] = [] :=
  ⟨Or.inl rfl, chartData_degenerate_empty [c6Scenario] 0 [] (Or.inl rfl)⟩

lemma withCum_length : ∀ (l : List (Scenario × ℚ)) (acc : ℚ),
    (withCum acc l).length = l.length := by
  intro l
  induction l with
  | nil => intro acc; rfl
  | cons x t ih =>
      intro acc
      obtain ⟨s, p⟩ := x
      simp [withCum, ih]

lemma withCum_fst_mem : ∀ (l : List (Scenario × ℚ)) (acc : ℚ) (y : Scenario × ℚ),
    y ∈ withCum acc l → ∃ x ∈ l, y.1 = x.1 := by
  intro l
  induction l with
  | nil => intro acc y hy; exact absurd hy (List.not_mem_nil y)
  | cons x t ih =>
      intro acc y hy
      obtain ⟨s, p⟩ := x
      rw [withCum] at hy
      rcases List.mem_cons.mp hy with rfl | hy
      · exact ⟨(s, p), List.mem_cons_self _ _, rfl⟩
      · obtain ⟨x, hx, hxy⟩ := ih (acc + p) y hy
        exact ⟨x, List.mem_cons_of_mem _ hx, hxy⟩

lemma cumPairs_length (scenarios : List Scenario) (d : TrialDraws) :
    (cumPairs scenarios d).length = scenarios.length := by
  unfold cumPairs
  rw [withCum_length, List.length_zip]
  have h : (normProbs scenarios d).length = scenarios.length := by
    unfold normProbs variedProbs
    rw [List.length_map, List.length_map, List.length_map, List.enum_length]
  rw [h, min_self]

lemma cumPairs_fst_mem (scenarios : List Scenario) (d : TrialDraws)
    (y : Scenario × ℚ) (hy : y ∈ cumPairs scenarios d) : y.1 ∈ scenarios := by
  obtain ⟨x, hx, hxy⟩ := withCum_fst_mem _ _ _ hy
  obtain ⟨s0, p0⟩ := x
  rw [hxy]
  exact (List.of_mem_zip hx).1

lemma selectScenario_some (scenarios : List Scenario) (d : TrialDraws)
    (hne : scenarios ≠ []) :
    ∃ w, selectScenario scenarios d = some w ∧ w.1 ∈ scenarios := by
  have hcp : cumPairs scenarios d ≠ [] := by
    intro hc
    have hl := cumPairs_length scenarios d
    rw [hc] at hl
    exact hne (List.length_eq_zero.mp hl.symm)
  unfold selectScenario
  cases hf : (cumPairs scenarios d).find? (fun sc => decide (d.pick ≤ sc.2)) with
  | some y =>
      refine ⟨y, rfl, ?_⟩
      exact cumPairs_fst_mem scenarios d y (List.mem_of_find?_eq_some hf)
  | none =>
      have hg : (cumPairs scenarios d).getLast? =
          some ((cumPairs scenarios d).getLast hcp) := List.getLast?_eq_getLast _ hcp
      refine ⟨(cumPairs scenarios d).getLast hcp, ?_, ?_⟩
      · rw [Option.none_or]
        exact hg
      · exact cumPairs_fst_mem scenarios d _ (List.getLast_mem hcp)

lemma runTrial_mem_bound (scenarios : List Scenario) (d : TrialDraws)
    (hne : scenarios ≠ []) (hj0 : 0 ≤ d.jitter) (hj1 : d.jitter < 1) :
    ∃ s ∈ scenarios,
      s.netPnl - (3/20) * |s.netPnl| ≤ runTrial scenarios d ∧
      runTrial scenarios d ≤ s.netPnl + (3/20) * |s.netPnl| := by
  obtain ⟨w, hw, hmem⟩ := selectScenario_some scenarios d hne
  have hnn : (0 : ℚ) ≤ |w.1.netPnl| := abs_nonneg _
  have h1 : -(1/2 : ℚ) ≤ d.jitter - 1/2 := by linarith
  have h2 : d.jitter - 1/2 ≤ (1/2 : ℚ) := by linarith
  have hb1 : -(1/2 : ℚ) * |w.1.netPnl| ≤ (d.jitter - 1/2) * |w.1.netPnl| :=
    mul_le_mul_of_nonneg_right h1 hnn
  have hb2 : (d.jitter - 1/2) * |w.1.netPnl| ≤ (1/2 : ℚ) * |w.1.netPnl| :=
    mul_le_mul_of_nonneg_right h2 hnn
  refine ⟨w.1, hmem, ?_, ?_⟩ <;>
  · unfold runTrial
    rw [hw]
    nlinarith [hb1, hb2, hnn]

/-- C10: for a non-empty scenario list and `Math.random()` draws in `[0, 1)`,
`runSimulation` returns exactly one P&L per trial, and each trial's P&L is
the `netPnl` of some scenario of the list (the cumulative sampling has a
total fallback to the last entry) plus a jitter whose magnitude is at most
`0.15` times that scenario's `|netPnl|`. -/
theorem runSimulation_trials (scenarios : List Scenario) (draws : List TrialDraws)
    (hne : scenarios ≠ [])
    (hj : ∀ d ∈ draws, 0 ≤ d.jitter ∧ d.jitter < 1) :
    (runSimulation scenarios draws).length = draws.length ∧
    ∀ r ∈ runSimulation scenarios draws, ∃ s ∈ scenarios,
      s.netPnl - (3/20) * |s.netPnl| ≤ r ∧ r ≤ s.netPnl + (3/20) * |s.netPnl| := by
  refine ⟨List.length_map _ _, ?_⟩
  intro r hr
  obtain ⟨d, hd, rfl⟩ := List.mem_map.mp hr
  exact runTrial_mem_bound scenarios d hne (hj d hd).1 (hj d hd).2

/-- Scenario used for the concrete C10 witness. -/
def c10Scenario : Scenario := ⟨"S", "s", 1, 100, true⟩

/-- Concrete draws (all `1/2`) for the C10 witness. -/
def c10Draws : TrialDraws := ⟨fun _ => 1/2, 1/2, 1/2⟩

/-- Witness for C10 at a one-scenario, one-trial input. -/
theorem runSimulation_trials_witness :
    (([c10Scenario] : List Scenario) ≠ []) ∧
    (∀ d ∈ [c10Draws], 0 ≤ d.jitter ∧ d.jitter < 1) ∧
    ((runSimulation [c10Scenario] [c10Draws]).length = 1 ∧
      ∀ r ∈ runSimulation [c10Scenario] [c10Draws], ∃ s ∈ [c10Scenario],
        s.netPnl - (3/20) * |s.netPnl| ≤ r ∧ r ≤ s.netPnl + (3/20) * |s.netPnl|) := by
  have hj : ∀ d ∈ [c10Draws], 0 ≤ d.jitter ∧ d.jitter < 1 := by
    intro d hd
    rcases List.mem_singleton.mp hd with rfl
    exact ⟨by norm_num [c10Draws], by norm_num [c10Draws]⟩
  exact ⟨by simp, hj, runSimulation_trials [c10Scenario] [c10Draws] (by simp) hj⟩

/-- Structure `ExitAnalysisEntry` (spec §3; displayed by
`HedgeGroupCard.tsx:534-601`). -/
structure ExitAnalysisEntry where
  ticker : String
  rangeLabel : String
  contracts : ℚ
  entryNoPrice : ℚ
  entryCost : ℚ
  exitTriggerYesProb : ℚ
  lossIfHeld : ℚ
  lossIfExit : ℚ
  numOtherBuckets : ℕ
  profitPerOtherBucket : ℚ
  profitFromOthers : ℚ
  netPnl : ℚ
  improvement : ℚ
  deriving DecidableEq

/-- Modelled from the spec: the backend `ExitAnalyzer` (spec §4.4) lives in
the Python `edge_engine` package, which is absent from the repository
snapshot; only the frontend that displays its entries is present.  One entry
per included, viable allocation with `contracts > 0`; `lossIfHeld` is the
allocation's `lossIfYesWins` (full loss at resolution); `lossIfExit` adds to
that full loss the partial NO-side recovery
`contracts * (100 - exitThreshold * 100) / 100` realized by selling when the
YES price reaches `exitThreshold * 100`; `netPnl = lossIfExit +
profitFromOthers`.  The spec's equation `improvement = lossIfHeld -
lossIfExit` contradicts its own invariants `improvement >= 0` and
`lossIfExit > lossIfHeld`; the model records `improvement = lossIfExit -
lossIfHeld`, the amount saved by exiting, which matches those invariants and
the frontend's `Saved +$…` display. -/
def analyzeExit (allocations : List BucketAllocation) (exitThreshold : ℚ) :
    List ExitAnalysisEntry :=
  let eligible := allocations.filter
    (fun a => a.included && a.viable && decide (0 < a.contracts))
  eligible.map (fun a =>
    let lossIfHeld := a.lossIfYesWins
    let exitRecovery := a.contracts * (100 - exitThreshold * 100) / 100
    let lossIfExit := a.lossIfYesWins + exitRecovery
    let others := eligible.filter (fun b => decide (b.ticker ≠ a.ticker))
    let profitFromOthers := (others.map (fun b => b.profitIfNoWins)).sum
    let numOtherBuckets := others.length
    { ticker := a.ticker
      rangeLabel := a.rangeLabel
      contracts := a.contracts
      entryNoPrice := a.noPrice
      entryCost := a.cost
      exitTriggerYesProb := exitThreshold
      lossIfHeld := lossIfHeld
      lossIfExit := lossIfExit
      numOtherBuckets := numOtherBuckets
      profitPerOtherBucket :=
        if numOtherBuckets = 0 then 0 else profitFromOthers / (numOtherBuckets : ℚ)
      profitFromOthers := profitFromOthers
      netPnl := lossIfExit + profitFromOthers
      improvement := lossIfExit - lossIfHeld })

/-- Allocation used for the concrete C5 inputs: one included, viable NO
contract at 50c with zero fees (`lossIfYesWins = -0.5`). -/
def c5Alloc : BucketAllocation :=
  { ticker := "A", rangeLabel := "a", noPrice := 50, yesPrice := 40,
    contracts := 1, cost := 1/2, fees := 0, totalOutlay := 1/2,
    profitIfNoWins := 1/2, lossIfYesWins := -(1/2), included := true,
    viable := true }

/-- Counterexample to C5 as stated: at threshold `0.65` the single entry has
`improvement = 0.35` while `lossIfHeld - lossIfExit = -0.35`, so
`improvement` does not equal `lossIfHeld` minus `lossIfExit` (the spec's
subtraction is reversed). -/
theorem analyzeExit_improvement_counterexample :
    ((analyzeExit [c5Alloc] (13/20)).map (fun e => e.improvement)) = [7/20] ∧
    ((analyzeExit [c5Alloc] (13/20)).map
        (fun e => e.lossIfHeld - e.lossIfExit)) = [-(7/20)] := by
  constructor <;>
  · simp [analyzeExit, c5Alloc]
    norm_num

/-- C5 (amended): every exit-analysis entry (each has `contracts > 0`), for
a threshold in `(0, 1)`, satisfies `improvement = lossIfExit - lossIfHeld`,
`improvement ≥ 0`, and `lossIfHeld < lossIfExit` — exiting early strictly
truncates the loss, never worsens it. -/
theorem analyzeExit_improvement (allocations : List BucketAllocation) (T : ℚ)
    (_h0 : 0 < T) (h1 : T < 1) :
    ∀ e ∈ analyzeExit allocations T,
      e.improvement = e.lossIfExit - e.lossIfHeld ∧
      0 ≤ e.improvement ∧
      e.lossIfHeld < e.lossIfExit := by
  intro e he
  unfold analyzeExit at he
  obtain ⟨a, ha, rfl⟩ := List.mem_map.mp he
  have hc : 0 < a.contracts := by
    have hf := (List.mem_filter.mp ha).2
    simp only [Bool.and_eq_true, decide_eq_true_eq] at hf
    exact hf.2
  have hrec : 0 < a.contracts * (100 - T * 100) / 100 := by
    apply div_pos
    · apply mul_pos hc
      linarith
    · norm_num
  refine ⟨rfl, ?_, ?_⟩
  · show 0 ≤ (a.lossIfYesWins + a.contracts * (100 - T * 100) / 100) - a.lossIfYesWins
    linarith
  · show a.lossIfYesWins < a.lossIfYesWins + a.contracts * (100 - T * 100) / 100
    linarith

/-- Witness for the amended C5 at threshold `0.65` on the concrete
allocation. -/
theorem analyzeExit_improvement_witness :
    ((0 : ℚ) < 13/20) ∧ ((13 : ℚ)/20 < 1) ∧
    (∀ e ∈ analyzeExit [c5Alloc] (13/20),
      e.improvement = e.lossIfExit - e.lossIfHeld ∧
      0 ≤ e.improvement ∧
      e.lossIfHeld < e.lossIfExit) :=
  ⟨by norm_num, by norm_num,
    analyzeExit_improvement [c5Alloc] (13/20) (by norm_num) (by norm_num)⟩

end KalshiEdge
